import Mathlib

/-!
Shallow embedding of the detection-aggregation pipeline of the
vision-safe-guard repository.

The embedded code:
* `processDetections`, `filterDuplicatePersons`, `epiMapping` and their
  helpers, from `src/components/EPIDetector.tsx` (lines 147-247);
* `getComplianceRates` / `countByClass`, from the compliance-rate views
  (`src/components/AlertDashboard.tsx` and the `ComplianceRatesCard`
  component of `EPIDetector.tsx`);
* the realtime controller loop (`startRealtime` / the sampling-timer tick /
  `stopRealtime`, `MAX_MISSED_FRAMES`) from `RealtimeDetector`.

Modelling conventions:
* JavaScript numbers are embedded as rationals (`ℚ`).  Division in `ℚ`
  returns 0 on a zero denominator while JS returns NaN/Infinity; for the one
  division whose denominator can be zero (the overlap ratio of
  `filterDuplicatePersons`) the numerator is provably 0 whenever the
  denominator is 0 (see `overlapGt_area_pos`), so the JS comparison
  `NaN > 0.7` (false) and the embedded comparison `0 > 0.7` (false) agree.
* Optional / possibly-absent JSON fields are `Option`; the optional-chaining
  reads (`predictions?.[0]?.persons`) become `Option.bind` chains.
* `Date.now()` is passed in explicitly as the `now` argument.
* `.toFixed(1)` on the compliance percentages is display formatting and is
  not modelled; the rates are kept as exact rationals.
-/

unseal Rat.ofScientific Rat.mul Rat.inv Rat.add Rat.sub

namespace VisionSafeGuard

/-- The closed set of detection classes of `EPIDetector.tsx`
(`'person' | 'hat' | 'mask' | 'gloves' | 'glasses' | 'boots' | 'hearing'`). -/
inductive DetType where
  | person
  | hat
  | mask
  | gloves
  | glasses
  | boots
  | hearing
deriving DecidableEq, Repr

/-- Alert severity (`'high' | 'medium' | 'low'`). -/
inductive Severity where
  | high
  | medium
  | low
deriving DecidableEq, Repr

/-- The canonical `Detection` record of `EPIDetector.tsx`. -/
structure Detection where
  id : String
  type : DetType
  confidence : ℚ
  x : ℚ
  y : ℚ
  w : ℚ
  h : ℚ
  frame : Nat
  timestamp : Nat
  className : Option String
deriving DecidableEq, Repr

/-- The `Alert` record of `EPIDetector.tsx`. -/
structure Alert where
  id : String
  personId : String
  missingEPIs : List String
  severity : Severity
  frame : Nat
  timestamp : Nat
deriving DecidableEq, Repr

/-- One raw entry of the person-detector response
(`{ score, box?: [x1,y1,x2,y2], x?, y?, w?, h? }`). -/
structure RawPerson where
  score : Option ℚ
  box : Option (ℚ × ℚ × ℚ × ℚ)
  w : Option ℚ
  h : Option ℚ
deriving DecidableEq, Repr

/-- One raw entry of the PPE-detector response. -/
structure RawPPE where
  class_name : Option String
  score : Option ℚ
  box_model_input_coords : Option (ℚ × ℚ × ℚ × ℚ)
  box : Option (ℚ × ℚ × ℚ × ℚ)
deriving DecidableEq, Repr

/-- `predictions[i]` of the person-detector response. -/
structure PersonPrediction where
  persons : Option (List RawPerson)
deriving DecidableEq, Repr

/-- The raw person-detector response body. -/
structure PersonResponse where
  predictions : Option (List PersonPrediction)
deriving DecidableEq, Repr

/-- `predictions[i]` of the PPE-detector response. -/
structure PPEPrediction where
  ppe_detections : Option (List RawPPE)
deriving DecidableEq, Repr

/-- The raw PPE-detector response body. -/
structure PPEResponse where
  predictions : Option (List PPEPrediction)
deriving DecidableEq, Repr

/-- `const MIN_CONFIDENCE = 0.5` in `processDetections`. -/
def MIN_CONFIDENCE : ℚ := 0.5

/-- `value || 0` applied to an optional numeric field (`person.score || 0`). -/
def scoreD (s : Option ℚ) : ℚ := s.getD 0

/-- `personData.predictions?.[0]?.persons`, degraded to `[]` when any link of
the optional chain is absent (the `if` guard plus `forEach`). -/
def personList (pd : PersonResponse) : List RawPerson :=
  ((pd.predictions.bind List.head?).bind (fun pr => pr.persons)).getD []

/-- `ppeData.predictions?.[0]?.ppe_detections`, degraded to `[]`. -/
def ppeList (ppd : PPEResponse) : List RawPPE :=
  ((ppd.predictions.bind List.head?).bind (fun pr => pr.ppe_detections)).getD []

/-- The canonical person `Detection` built by `processDetections` for raw
entry `p` at raw index `idx`: `x`/`y` come from `box[0]`/`box[1]` (else 0),
`w`/`h` from `box[2]-box[0]` / `box[3]-box[1]` (else the raw `w`/`h` fields,
else 0). -/
def mkPersonDet (frame now idx : Nat) (p : RawPerson) : Detection :=
  { id := s!"person_{frame}_{idx}"
    type := DetType.person
    confidence := scoreD p.score
    x := match p.box with | some b => b.1 | none => 0
    y := match p.box with | some b => b.2.1 | none => 0
    w := match p.box with | some b => b.2.2.1 - b.1 | none => p.w.getD 0
    h := match p.box with | some b => b.2.2.2 - b.2.1 | none => p.h.getD 0
    frame := frame
    timestamp := now
    className := none }

/-- The body of the `persons.forEach` loop: entries with
`(score || 0) < MIN_CONFIDENCE` are skipped. -/
def personDetOfRaw (frame now idx : Nat) (p : RawPerson) : Option Detection :=
  if scoreD p.score < MIN_CONFIDENCE then none
  else some (mkPersonDet frame now idx p)

/-- The `persons.forEach((person, index) => ...)` loop, `idx` being the raw
array index (it advances on skipped entries too). -/
def personDetsAux (frame now : Nat) : Nat → List RawPerson → List Detection
  | _, [] => []
  | idx, p :: ps =>
    match personDetOfRaw frame now idx p with
    | none => personDetsAux frame now (idx + 1) ps
    | some d => d :: personDetsAux frame now (idx + 1) ps

/-- All canonical person detections of one frame. -/
def personDets (pd : PersonResponse) (frame now : Nat) : List Detection :=
  personDetsAux frame now 0 (personList pd)

/-- `String.prototype.toLowerCase` (per-character lowering, written over the
character list so that it evaluates by kernel reduction). -/
def jsToLower (s : String) : String := (s.data.map Char.toLower).asString

/-- The `epiMapping` lowercase-label → canonical-class table. -/
def epiMapping (className : String) : Option DetType :=
  if className = "hat" then some DetType.hat
  else if className = "boots" then some DetType.boots
  else if className = "hearing" then some DetType.hearing
  else if className = "goggles" then some DetType.glasses
  else if className = "mask" then some DetType.mask
  else if className = "gloves" then some DetType.gloves
  else none

/-- `epiMapping[epi.class_name?.toLowerCase()]`. -/
def mappedType (e : RawPPE) : Option DetType :=
  (e.class_name.map jsToLower).bind epiMapping

/-- `epi.box_model_input_coords || epi.box || [0, 0, 0, 0]` (arrays are always
truthy in JS, so this is a first-present choice). -/
def epiBox (e : RawPPE) : ℚ × ℚ × ℚ × ℚ :=
  (e.box_model_input_coords.orElse (fun _ => e.box)).getD (0, 0, 0, 0)

/-- The canonical PPE `Detection` built for raw entry `e` of class `t`. -/
def mkEpiDet (frame now idx : Nat) (e : RawPPE) (t : DetType) : Detection :=
  { id := s!"epi_{frame}_{idx}"
    type := t
    confidence := scoreD e.score
    x := (epiBox e).1
    y := (epiBox e).2.1
    w := (epiBox e).2.2.1 - (epiBox e).1
    h := (epiBox e).2.2.2 - (epiBox e).2.1
    frame := frame
    timestamp := now
    className := e.class_name.map jsToLower }

/-- The body of the `ppe_detections.forEach` loop: entries whose class is
unmapped, or whose `(score || 0) < MIN_CONFIDENCE`, are skipped. -/
def epiDetOfRaw (frame now idx : Nat) (e : RawPPE) : Option Detection :=
  match mappedType e with
  | none => none
  | some t =>
    if scoreD e.score < MIN_CONFIDENCE then none
    else some (mkEpiDet frame now idx e t)

/-- The `ppe_detections.forEach((epi, index) => ...)` loop. -/
def epiDetsAux (frame now : Nat) : Nat → List RawPPE → List Detection
  | _, [] => []
  | idx, e :: es =>
    match epiDetOfRaw frame now idx e with
    | none => epiDetsAux frame now (idx + 1) es
    | some d => d :: epiDetsAux frame now (idx + 1) es

/-- All canonical PPE detections of one frame. -/
def epiDets (ppd : PPEResponse) (frame now : Nat) : List Detection :=
  epiDetsAux frame now 0 (ppeList ppd)

/-- The `detectedEPIClasses` set (each retained PPE entry adds its mapped
class); membership below is set-membership. -/
def detectedEPIClasses (ppd : PPEResponse) (frame now : Nat) : List DetType :=
  (epiDets ppd frame now).map (fun d => d.type)

/-- `const requiredEPIs = new Set(['mask', 'glasses', 'hearing'])`
(a JS `Set` iterates in insertion order). -/
def requiredEPIs : List DetType := [DetType.mask, DetType.glasses, DetType.hearing]

/-- `Array.from(requiredEPIs).filter(epi => !detectedEPIClasses.has(epi))`. -/
def missingEPIs (ppd : PPEResponse) (frame now : Nat) : List DetType :=
  requiredEPIs.filter (fun epi => ! (detectedEPIClasses ppd frame now).contains epi)

/-- The TS string literal naming each class. -/
def typeName : DetType → String
  | DetType.person => "person"
  | DetType.hat => "hat"
  | DetType.mask => "mask"
  | DetType.gloves => "gloves"
  | DetType.glasses => "glasses"
  | DetType.boots => "boots"
  | DetType.hearing => "hearing"

/-- The display mapping applied to `missingEPIs` inside the alert builder. -/
def displayEPI (epi : DetType) : String :=
  if epi = DetType.mask then "Máscara"
  else if epi = DetType.glasses then "Óculos de Proteção"
  else if epi = DetType.hearing then "Protetor Auricular"
  else typeName epi

/-- The alert pushed for `person` at position `personIndex` of
`personsInFrame`. -/
def mkAlert (frame now personIndex : Nat) (person : Detection)
    (missing : List DetType) : Alert :=
  { id := s!"alert_{frame}_{personIndex}"
    personId := person.id
    missingEPIs := missing.map displayEPI
    severity := if 2 ≤ missing.length then Severity.high else Severity.medium
    frame := frame
    timestamp := now }

/-- The `personsInFrame.forEach((person, personIndex) => ...)` loop; nothing
is pushed when `missingEPIs.length === 0`. -/
def frameAlertsAux (frame now : Nat) (missing : List DetType) :
    Nat → List Detection → List Alert
  | _, [] => []
  | idx, p :: ps =>
    if missing.length = 0 then frameAlertsAux frame now missing (idx + 1) ps
    else mkAlert frame now idx p missing :: frameAlertsAux frame now missing (idx + 1) ps

/-- All alerts derived for one frame. -/
def frameAlerts (frame now : Nat) (missing : List DetType)
    (persons : List Detection) : List Alert :=
  frameAlertsAux frame now missing 0 persons

/-- `d.type === 'person'`. -/
def isPersonDet (d : Detection) : Bool := d.type == DetType.person

/-- The overlap ratio of `filterDuplicatePersons`: intersection area divided
by the *candidate's own* area `p.w * p.h` (asymmetric, not true IoU). -/
def overlapRatio (f p : Detection) : ℚ :=
  (max 0 (min (f.x + f.w) (p.x + p.w) - max f.x p.x)
    * max 0 (min (f.y + f.h) (p.y + p.h) - max f.y p.y)) / (p.w * p.h)

/-- `iou > 0.7`. -/
def overlapGt (f p : Detection) : Bool :=
  decide ((0.7 : ℚ) < overlapRatio f p)

/-- One iteration of the `persons.forEach(p => ...)` loop of
`filterDuplicatePersons`: `p` is appended unless it overlaps some already
kept detection. -/
def dedupStep (filtered : List Detection) (p : Detection) : List Detection :=
  if filtered.any (fun f => overlapGt f p) then filtered else filtered ++ [p]

/-- The whole `persons.forEach` loop, starting from `filtered = []`. -/
def dedupPersons (persons : List Detection) : List Detection :=
  persons.foldl dedupStep []

/-- `filterDuplicatePersons` from `EPIDetector.tsx` lines 227-243: persons are
deduplicated, non-persons pass through, and the result is
`[...filtered, ...nonPersons]`. -/
def filterDuplicatePersons (detections : List Detection) : List Detection :=
  dedupPersons (detections.filter isPersonDet)
    ++ detections.filter (fun d => ! isPersonDet d)

/-- The accumulated React state (`detections`, `alerts`). -/
@[ext]
structure StoreState where
  detections : List Detection
  alerts : List Alert
deriving DecidableEq, Repr

/-- The per-frame `newDetections` list (persons first, then PPE entries, in
push order). -/
def newDetections (pd : PersonResponse) (ppd : PPEResponse)
    (frame now : Nat) : List Detection :=
  personDets pd frame now ++ epiDets ppd frame now

/-- `processDetections(personData, ppeData, frame)` from `EPIDetector.tsx`
lines 147-247, as a state transformer on the accumulated store:
`setDetections(prev => filterDuplicatePersons([...prev, ...newDetections]))`
and `setAlerts(prev => [...prev, ...frameAlerts])`. -/
def processDetections (pd : PersonResponse) (ppd : PPEResponse)
    (frame now : Nat) (st : StoreState) : StoreState :=
  let nd := newDetections pd ppd frame now
  let personsInFrame := nd.filter isPersonDet
  let missing := missingEPIs ppd frame now
  let fa := frameAlerts frame now missing personsInFrame
  { detections := filterDuplicatePersons (st.detections ++ nd)
    alerts := st.alerts ++ fa }

/-- A store state that is a fixed point of the merge step; `storeInv_empty`
and `storeInv_process` show that every reachable store state satisfies it. -/
def storeInv (st : StoreState) : Prop :=
  st.detections = filterDuplicatePersons st.detections

/-- `detections.filter(d => d.type === c).length` of the dashboard stats. -/
def countByClass (detections : List Detection) (t : DetType) : Nat :=
  (detections.filter (fun d => d.type == t)).length

/-- The six PPE classes reported by `getComplianceRates` of
`ComplianceRatesCard`. -/
def ppeClasses : List DetType :=
  [DetType.hat, DetType.mask, DetType.gloves, DetType.glasses,
   DetType.boots, DetType.hearing]

/-- `getComplianceRates` of `ComplianceRatesCard` (and, with its 5-class
vocabulary, `AlertDashboard`): `{}` — the empty map — when no person was
detected, otherwise one `min(100, count/persons * 100)` entry per PPE class
(`.toFixed(1)` display formatting not modelled). -/
def getComplianceRates (detections : List Detection) : List (DetType × ℚ) :=
  let personDetections := countByClass detections DetType.person
  if personDetections = 0 then []
  else ppeClasses.map (fun t =>
    (t, min 100 ((countByClass detections t : ℚ) / (personDetections : ℚ) * 100)))

/-- The rate reported for one class: `none` when the rates object has no
entry for it. -/
def complianceRate (detections : List Detection) (t : DetType) : Option ℚ :=
  (getComplianceRates detections).lookup t

/-- `const MAX_MISSED_FRAMES = 5` of `RealtimeDetector`. -/
def MAX_MISSED_FRAMES : Nat := 5

/-- The live-session controller state: `isRealtime` is true exactly while the
sampling timer is active (`Analyzing`), `isCameraOn` while the camera stream
is held. -/
structure RTState where
  isRealtime : Bool
  isCameraOn : Bool
  missedFrames : Nat
  store : StoreState
deriving Repr

/-- `personDetections.predictions?.[0]?.persons?.filter(p => (p.score || 0) >= 0.6) || []`. -/
def qualifyingPersons (pd : PersonResponse) : List RawPerson :=
  (personList pd).filter (fun p => decide ((0.6 : ℚ) ≤ scoreD p.score))

/-- `startRealtime`: no-op unless the camera is on and no loop is running;
otherwise starts the timer with the missed-frame counter reset. -/
def startRealtime (s : RTState) : RTState :=
  if ! s.isCameraOn || s.isRealtime then s
  else { s with isRealtime := true, missedFrames := 0 }

/-- One sampling-timer cycle of `startRealtime`'s `setInterval` body: count or
reset the missed-frame counter, run `processDetections` (with
`frame = Date.now()`), then `stopRealtime` once the counter reaches
`MAX_MISSED_FRAMES`.  No cycle runs once the timer is cancelled. -/
def rtTick (s : RTState) (pd : PersonResponse) (ppd : PPEResponse)
    (now : Nat) : RTState :=
  if ! s.isRealtime then s
  else
    let missed := if (qualifyingPersons pd).length = 0 then s.missedFrames + 1 else 0
    let store := processDetections pd ppd now now s.store
    if MAX_MISSED_FRAMES ≤ missed then
      { isRealtime := false, isCameraOn := s.isCameraOn,
        missedFrames := missed, store := store }
    else
      { isRealtime := true, isCameraOn := s.isCameraOn,
        missedFrames := missed, store := store }

/-- A sequence of sampling-timer cycles with the given per-cycle responses. -/
def rtRun (s : RTState) : List (PersonResponse × PPEResponse × Nat) → RTState
  | [] => s
  | (pd, ppd, now) :: rest => rtRun (rtTick s pd ppd now) rest

/-! ### Occurrence counts -/

/-- Number of occurrences of `a` in a detection list. -/
def occ (a : Detection) : List Detection → Nat
  | [] => 0
  | b :: l => (if b = a then 1 else 0) + occ a l

theorem occ_append (a : Detection) (l₁ l₂ : List Detection) :
    occ a (l₁ ++ l₂) = occ a l₁ + occ a l₂ := by
  induction l₁ with
  | nil => simp [occ]
  | cons b l ih => simp [occ, ih]; omega

theorem occ_eq_zero_of_not_mem (a : Detection) (l : List Detection)
    (h : a ∉ l) : occ a l = 0 := by
  induction l with
  | nil => rfl
  | cons b l ih =>
    simp only [List.mem_cons, not_or] at h
    have hba : b ≠ a := fun hba => h.1 hba.symm
    simp [occ, ih h.2, hba]

theorem occ_eq_zero_of_pred (a : Detection) (l : List Detection)
    (q : Detection → Bool) (hl : ∀ x ∈ l, q x = true) (ha : q a = false) :
    occ a l = 0 := by
  apply occ_eq_zero_of_not_mem
  intro hmem
  rw [hl a hmem] at ha
  exact Bool.noConfusion ha

theorem occ_filter_pos (a : Detection) (q : Detection → Bool) (l : List Detection)
    (ha : q a = true) : occ a (l.filter q) = occ a l := by
  induction l with
  | nil => rfl
  | cons b l ih =>
    by_cases hb : q b = true
    · simp [List.filter_cons, hb, occ, ih]
    · have hba : b ≠ a := fun hh => hb (by rw [hh]; exact ha)
      simp [List.filter_cons, hb, occ, ih, hba]

theorem occ_filter_neg (a : Detection) (q : Detection → Bool) (l : List Detection)
    (ha : q a = false) : occ a (l.filter q) = 0 :=
  occ_eq_zero_of_pred a (l.filter q) q
    (fun _ hx => (List.mem_filter.mp hx).2) ha

/-! ### Properties of the dedup fold of `filterDuplicatePersons` -/

theorem dedupStep_pos (acc : List Detection) (p : Detection)
    (h : acc.any (fun f => overlapGt f p) = true) : dedupStep acc p = acc := by
  unfold dedupStep
  simp [h]

theorem dedupStep_neg (acc : List Detection) (p : Detection)
    (h : acc.any (fun f => overlapGt f p) = false) :
    dedupStep acc p = acc ++ [p] := by
  unfold dedupStep
  simp [h]

theorem dedup_extends (l : List Detection) :
    ∀ acc : List Detection, ∃ ex : List Detection,
      List.foldl dedupStep acc l = acc ++ ex ∧ ex.Sublist l := by
  induction l with
  | nil => intro acc; exact ⟨[], by simp, List.Sublist.refl []⟩
  | cons p ps ih =>
    intro acc
    simp only [List.foldl_cons]
    cases h : acc.any (fun f => overlapGt f p) with
    | true =>
      obtain ⟨ex, hex, hsub⟩ := ih acc
      exact ⟨ex, by rw [dedupStep_pos acc p h, hex], hsub.cons p⟩
    | false =>
      obtain ⟨ex, hex, hsub⟩ := ih (acc ++ [p])
      refine ⟨p :: ex, ?_, hsub.cons₂ p⟩
      rw [dedupStep_neg acc p h, hex]
      simp

theorem dedup_mem (l acc : List Detection) (x : Detection)
    (hx : x ∈ List.foldl dedupStep acc l) : x ∈ acc ∨ x ∈ l := by
  obtain ⟨ex, hex, hsub⟩ := dedup_extends l acc
  rw [hex] at hx
  rcases List.mem_append.mp hx with h | h
  · exact Or.inl h
  · exact Or.inr (hsub.mem h)

theorem dedup_acc_mem (l acc : List Detection) (x : Detection) (hx : x ∈ acc) :
    x ∈ List.foldl dedupStep acc l := by
  obtain ⟨ex, hex, _⟩ := dedup_extends l acc
  rw [hex]
  exact List.mem_append.mpr (Or.inl hx)

/-- Once a detection `A` is among the kept ones, every later candidate `B`
with `overlapGt A B` is dropped: the number of occurrences of `B` never
grows. -/
theorem dedup_blocked (A B : Detection) (hover : overlapGt A B = true) :
    ∀ (l acc : List Detection), A ∈ acc →
      occ B (List.foldl dedupStep acc l) = occ B acc := by
  intro l
  induction l with
  | nil => intro acc _; rfl
  | cons p ps ih =>
    intro acc hA
    simp only [List.foldl_cons]
    cases h : acc.any (fun f => overlapGt f p) with
    | true =>
      rw [dedupStep_pos acc p h]
      exact ih acc hA
    | false =>
      have hpB : p ≠ B := by
        intro hpB
        subst hpB
        rw [List.any_eq_true.mpr ⟨A, hA, hover⟩] at h
        exact Bool.noConfusion h
      rw [dedupStep_neg acc p h, ih (acc ++ [p]) (List.mem_append.mpr (Or.inl hA))]
      simp [occ_append, occ, hpB]

/-- A list that the dedup fold reproduces stays reproduced when the fold
continues over further input. -/
theorem dedup_fix_step (l : List Detection) :
    ∀ acc : List Detection, List.foldl dedupStep [] acc = acc →
      List.foldl dedupStep [] (List.foldl dedupStep acc l) =
        List.foldl dedupStep acc l := by
  induction l with
  | nil => intro acc hacc; exact hacc
  | cons p ps ih =>
    intro acc hacc
    simp only [List.foldl_cons]
    cases h : acc.any (fun f => overlapGt f p) with
    | true =>
      rw [dedupStep_pos acc p h]
      exact ih acc hacc
    | false =>
      rw [dedupStep_neg acc p h]
      apply ih (acc ++ [p])
      rw [List.foldl_append, hacc]
      simp only [List.foldl_cons, List.foldl_nil]
      exact dedupStep_neg acc p h

/-- `dedupPersons` is idempotent. -/
theorem dedupPersons_idem (l : List Detection) :
    dedupPersons (dedupPersons l) = dedupPersons l := by
  unfold dedupPersons
  exact dedup_fix_step l [] rfl


theorem dedup_all_pred (l : List Detection) (q : Detection → Bool)
    (hl : ∀ y ∈ l, q y = true) :
    ∀ x ∈ dedupPersons l, q x = true := by
  intro x hx
  rcases dedup_mem l [] x hx with h | h
  · cases h
  · exact hl x h

theorem dedupPersons_append_fix (P nd : List Detection)
    (h : dedupPersons P = P) :
    dedupPersons (P ++ nd) = List.foldl dedupStep P nd := by
  unfold dedupPersons at *
  rw [List.foldl_append, h]

/-! ### The store invariant -/

theorem filter_person_dedup (P : List Detection)
    (hP : ∀ y ∈ P, isPersonDet y = true) :
    (dedupPersons P).filter isPersonDet = dedupPersons P :=
  List.filter_eq_self.mpr (dedup_all_pred P isPersonDet hP)

theorem filterDuplicatePersons_split (l : List Detection) :
    (filterDuplicatePersons l).filter isPersonDet
        = dedupPersons (l.filter isPersonDet) ∧
      (filterDuplicatePersons l).filter (fun d => ! isPersonDet d)
        = l.filter (fun d => ! isPersonDet d) := by
  unfold filterDuplicatePersons
  have hP : ∀ y ∈ l.filter isPersonDet, isPersonDet y = true :=
    fun y hy => (List.mem_filter.mp hy).2
  have hdP : ∀ y ∈ dedupPersons (l.filter isPersonDet), isPersonDet y = true :=
    dedup_all_pred (l.filter isPersonDet) isPersonDet hP
  constructor
  · rw [List.filter_append]
    rw [List.filter_eq_self.mpr hdP]
    have : (l.filter (fun d => ! isPersonDet d)).filter isPersonDet = [] := by
      apply List.filter_eq_nil_iff.mpr
      intro a ha
      have := (List.mem_filter.mp ha).2
      simp only [Bool.not_eq_true'] at this
      simp [this]
    rw [this, List.append_nil]
  · rw [List.filter_append]
    have h1 : (dedupPersons (l.filter isPersonDet)).filter (fun d => ! isPersonDet d) = [] := by
      apply List.filter_eq_nil_iff.mpr
      intro a ha
      simp [hdP a ha]
    have h2 : (l.filter (fun d => ! isPersonDet d)).filter (fun d => ! isPersonDet d)
        = l.filter (fun d => ! isPersonDet d) :=
      List.filter_eq_self.mpr (fun a ha => (List.mem_filter.mp ha).2)
    rw [h1, h2, List.nil_append]

theorem filterDuplicatePersons_idem (l : List Detection) :
    filterDuplicatePersons (filterDuplicatePersons l) = filterDuplicatePersons l := by
  obtain ⟨h1, h2⟩ := filterDuplicatePersons_split l
  calc filterDuplicatePersons (filterDuplicatePersons l)
      = dedupPersons ((filterDuplicatePersons l).filter isPersonDet)
          ++ (filterDuplicatePersons l).filter (fun d => ! isPersonDet d) := rfl
    _ = dedupPersons (dedupPersons (l.filter isPersonDet))
          ++ l.filter (fun d => ! isPersonDet d) := by rw [h1, h2]
    _ = dedupPersons (l.filter isPersonDet)
          ++ l.filter (fun d => ! isPersonDet d) := by rw [dedupPersons_idem]
    _ = filterDuplicatePersons l := rfl

theorem storeInv_empty : storeInv ⟨[], []⟩ := rfl

/-- Every store state produced by `processDetections` satisfies the
invariant: the merge step is idempotent. -/
theorem storeInv_process (pd : PersonResponse) (ppd : PPEResponse)
    (frame now : Nat) (st : StoreState) :
    storeInv (processDetections pd ppd frame now st) := by
  unfold storeInv processDetections
  exact (filterDuplicatePersons_idem _).symm

theorem storeInv_persons_fix (st : StoreState) (h : storeInv st) :
    dedupPersons (st.detections.filter isPersonDet)
      = st.detections.filter isPersonDet := by
  obtain ⟨h1, _⟩ := filterDuplicatePersons_split st.detections
  unfold storeInv at h
  conv_lhs => rw [h]
  conv_rhs => rw [h]
  rw [h1, dedupPersons_idem]

/-! ### Injectivity of the generated detection ids

The ids `person_<frame>_<idx>` embed the raw array index through
`Nat.toString`; the lemmas below show distinct indices give distinct ids. -/

theorem toDigitsCore_shift (b : Nat) :
    ∀ (fuel n : Nat) (ds : List Char),
      Nat.toDigitsCore b fuel n ds = Nat.toDigitsCore b fuel n [] ++ ds := by
  intro fuel
  induction fuel with
  | zero => intro n ds; rfl
  | succ f ih =>
    intro n ds
    simp only [Nat.toDigitsCore]
    by_cases h : n / b = 0
    · simp [h]
    · simp only [h, if_false]
      rw [ih (n / b) (Nat.digitChar (n % b) :: ds), ih (n / b) [Nat.digitChar (n % b)]]
      simp

theorem toDigitsCore_fuel (n : Nat) :
    ∀ f₁ f₂ : Nat, n < f₁ → n < f₂ → ∀ ds : List Char,
      Nat.toDigitsCore 10 f₁ n ds = Nat.toDigitsCore 10 f₂ n ds := by
  induction n using Nat.strong_induction_on with
  | _ n ih =>
    intro f₁ f₂ h₁ h₂ ds
    match f₁, f₂, h₁, h₂ with
    | f₁ + 1, f₂ + 1, h₁, h₂ =>
      simp only [Nat.toDigitsCore]
      by_cases h : n / 10 = 0
      · simp [h]
      · simp only [h, if_false]
        have hpos : 0 < n := by
          rcases Nat.eq_zero_or_pos n with h0 | h0
          · subst h0; simp at h
          · exact h0
        have hlt : n / 10 < n := Nat.div_lt_self hpos (by omega)
        exact ih (n / 10) hlt f₁ f₂ (by omega) (by omega) _

theorem toDigits_single (n : Nat) (h : n < 10) :
    Nat.toDigits 10 n = [Nat.digitChar n] := by
  unfold Nat.toDigits
  simp only [Nat.toDigitsCore]
  have h0 : n / 10 = 0 := Nat.div_eq_of_lt h
  simp [h0, Nat.mod_eq_of_lt h]

theorem toDigits_step (n : Nat) (h : 10 ≤ n) :
    Nat.toDigits 10 n = Nat.toDigits 10 (n / 10) ++ [Nat.digitChar (n % 10)] := by
  unfold Nat.toDigits
  conv_lhs => simp only [Nat.toDigitsCore]
  have h0 : ¬ n / 10 = 0 := by
    have : 1 ≤ n / 10 := (Nat.one_le_div_iff (by omega)).mpr h
    omega
  simp only [h0, if_false]
  rw [toDigitsCore_shift 10 n (n / 10) [Nat.digitChar (n % 10)]]
  have hlt : n / 10 < n := Nat.div_lt_self (by omega) (by omega)
  rw [toDigitsCore_fuel (n / 10) n (n / 10 + 1) hlt (Nat.lt_succ_self _) []]

theorem toDigits_length_pos (n : Nat) : 0 < (Nat.toDigits 10 n).length := by
  by_cases h : n < 10
  · simp [toDigits_single n h]
  · rw [toDigits_step n (by omega)]
    simp

theorem digitChar_inj (a b : Nat) (ha : a < 10) (hb : b < 10)
    (h : Nat.digitChar a = Nat.digitChar b) : a = b := by
  interval_cases a <;> interval_cases b <;> first | rfl | exact absurd h (by decide)

theorem toDigits_inj (n : Nat) :
    ∀ m : Nat, Nat.toDigits 10 n = Nat.toDigits 10 m → n = m := by
  induction n using Nat.strong_induction_on with
  | _ n ih =>
    intro m h
    by_cases hn : n < 10 <;> by_cases hm : m < 10
    · rw [toDigits_single n hn, toDigits_single m hm] at h
      exact digitChar_inj n m hn hm (List.cons_eq_cons.mp h).1
    · rw [toDigits_single n hn, toDigits_step m (by omega)] at h
      have hlen := congrArg List.length h
      simp only [List.length_append, List.length_cons, List.length_nil] at hlen
      have hlp := toDigits_length_pos (m / 10)
      omega
    · rw [toDigits_step n (by omega), toDigits_single m hm] at h
      have hlen := congrArg List.length h
      simp only [List.length_append, List.length_cons, List.length_nil] at hlen
      have hlp := toDigits_length_pos (n / 10)
      omega
    · rw [toDigits_step n (by omega), toDigits_step m (by omega)] at h
      have hrev := congrArg List.reverse h
      simp only [List.reverse_append, List.reverse_cons, List.reverse_nil,
        List.nil_append, List.singleton_append, List.cons.injEq] at hrev
      obtain ⟨hd, htl⟩ := hrev
      have hpos : 0 < n := by omega
      have hdiv : n / 10 = m / 10 :=
        ih (n / 10) (Nat.div_lt_self hpos (by omega)) (m / 10)
          (List.reverse_injective htl)
      have hmod : n % 10 = m % 10 :=
        digitChar_inj (n % 10) (m % 10) (Nat.mod_lt n (by omega))
          (Nat.mod_lt m (by omega)) hd
      omega

theorem natToString_data_inj (n m : Nat)
    (h : (toString n).data = (toString m).data) : n = m :=
  toDigits_inj n m h

theorem string_append_data (a b : String) : (a ++ b).data = a.data ++ b.data := rfl

theorem toString_string (s : String) : toString s = s := rfl

theorem personId_inj (frame i j : Nat)
    (h : (s!"person_{frame}_{i}" : String) = s!"person_{frame}_{j}") : i = j := by
  have hd := congrArg String.data h
  simp only [toString_string, string_append_data, List.append_assoc,
    List.append_nil] at hd
  have h1 := List.append_cancel_left hd
  have h2 := List.append_cancel_left h1
  have h3 := List.append_cancel_left h2
  exact natToString_data_inj i j h3

/-! ### Ids generated for person detections -/

theorem personDetOfRaw_some (frame now idx : Nat) (p : RawPerson) (d : Detection)
    (hp : personDetOfRaw frame now idx p = some d) :
    d = mkPersonDet frame now idx p ∧ ¬ scoreD p.score < MIN_CONFIDENCE := by
  unfold personDetOfRaw at hp
  by_cases hs : scoreD p.score < MIN_CONFIDENCE
  · simp [hs] at hp
  · simp [hs] at hp
    exact ⟨hp.symm, hs⟩

theorem personDetsAux_id (frame now : Nat) :
    ∀ (ps : List RawPerson) (idx : Nat) (d : Detection),
      d ∈ personDetsAux frame now idx ps →
      ∃ j, idx ≤ j ∧ d.id = s!"person_{frame}_{j}" := by
  intro ps
  induction ps with
  | nil => intro idx d h; cases h
  | cons p ps ih =>
    intro idx d h
    cases hp : personDetOfRaw frame now idx p with
    | none =>
      simp only [personDetsAux, hp] at h
      obtain ⟨j, hj, hid⟩ := ih (idx + 1) d h
      exact ⟨j, by omega, hid⟩
    | some d0 =>
      simp only [personDetsAux, hp] at h
      rcases List.mem_cons.mp h with h | h
      · subst h
        refine ⟨idx, Nat.le_refl idx, ?_⟩
        rw [(personDetOfRaw_some frame now idx p d hp).1]
        rfl
      · obtain ⟨j, hj, hid⟩ := ih (idx + 1) d h
        exact ⟨j, by omega, hid⟩

theorem personDetsAux_ids_nodup (frame now : Nat) :
    ∀ (ps : List RawPerson) (idx : Nat),
      ((personDetsAux frame now idx ps).map (fun d => d.id)).Nodup := by
  intro ps
  induction ps with
  | nil => intro idx; simp [personDetsAux]
  | cons p ps ih =>
    intro idx
    cases hp : personDetOfRaw frame now idx p with
    | none =>
      simp only [personDetsAux, hp]
      exact ih (idx + 1)
    | some d0 =>
      simp only [personDetsAux, hp, List.map_cons, List.nodup_cons]
      refine ⟨?_, ih (idx + 1)⟩
      intro hmem
      obtain ⟨d, hd, hdid⟩ := List.mem_map.mp hmem
      obtain ⟨j, hj, hid⟩ := personDetsAux_id frame now ps (idx + 1) d hd
      have hd0 : d0.id = s!"person_{frame}_{idx}" := by
        rw [(personDetOfRaw_some frame now idx p d0 hp).1]
        rfl
      rw [hid, hd0] at hdid
      have := personId_inj frame j idx hdid
      omega

theorem personDets_ids_nodup (pd : PersonResponse) (frame now : Nat) :
    ((personDets pd frame now).map (fun d => d.id)).Nodup :=
  personDetsAux_ids_nodup frame now (personList pd) 0

/-! ### The persons of a frame -/

theorem personDetsAux_all_person (frame now : Nat) :
    ∀ (ps : List RawPerson) (idx : Nat) (d : Detection),
      d ∈ personDetsAux frame now idx ps → isPersonDet d = true := by
  intro ps
  induction ps with
  | nil => intro idx d h; cases h
  | cons p ps ih =>
    intro idx d h
    cases hp : personDetOfRaw frame now idx p with
    | none =>
      simp only [personDetsAux, hp] at h
      exact ih (idx + 1) d h
    | some d0 =>
      simp only [personDetsAux, hp] at h
      rcases List.mem_cons.mp h with h | h
      · subst h
        rw [(personDetOfRaw_some frame now idx p d hp).1]
        rfl
      · exact ih (idx + 1) d h

theorem epiMapping_ne_person (s : String) (t : DetType)
    (h : epiMapping s = some t) : t ≠ DetType.person := by
  unfold epiMapping at h
  split_ifs at h <;> simp_all <;> intro hc <;> rw [← h] at hc <;> cases hc

theorem epiDetOfRaw_some (frame now idx : Nat) (e : RawPPE) (d : Detection)
    (hp : epiDetOfRaw frame now idx e = some d) :
    ∃ t, mappedType e = some t ∧ ¬ scoreD e.score < MIN_CONFIDENCE ∧
      d = mkEpiDet frame now idx e t := by
  unfold epiDetOfRaw at hp
  cases hm : mappedType e with
  | none => rw [hm] at hp; cases hp
  | some t =>
    rw [hm] at hp
    by_cases hs : scoreD e.score < MIN_CONFIDENCE
    · simp [hs] at hp
    · simp [hs] at hp
      exact ⟨t, rfl, hs, hp.symm⟩

theorem epiDetsAux_no_person (frame now : Nat) :
    ∀ (es : List RawPPE) (idx : Nat) (d : Detection),
      d ∈ epiDetsAux frame now idx es → isPersonDet d = false := by
  intro es
  induction es with
  | nil => intro idx d h; cases h
  | cons e es ih =>
    intro idx d h
    cases hp : epiDetOfRaw frame now idx e with
    | none =>
      simp only [epiDetsAux, hp] at h
      exact ih (idx + 1) d h
    | some d0 =>
      simp only [epiDetsAux, hp] at h
      rcases List.mem_cons.mp h with h | h
      · subst h
        obtain ⟨t, hm, _, hd⟩ := epiDetOfRaw_some frame now idx e d hp
        have ht : t ≠ DetType.person := by
          unfold mappedType at hm
          cases hcn : e.class_name with
          | none => rw [hcn] at hm; cases hm
          | some s =>
            rw [hcn] at hm
            exact epiMapping_ne_person (jsToLower s) t hm
        rw [hd]
        unfold isPersonDet mkEpiDet
        simpa using ht
      · exact ih (idx + 1) d h

/-- Within one frame, the persons of `newDetections` are exactly the
canonical person detections (PPE entries are never of class `person`). -/
theorem newDetections_persons (pd : PersonResponse) (ppd : PPEResponse)
    (frame now : Nat) :
    (newDetections pd ppd frame now).filter isPersonDet = personDets pd frame now := by
  unfold newDetections
  rw [List.filter_append]
  have h1 : (personDets pd frame now).filter isPersonDet = personDets pd frame now :=
    List.filter_eq_self.mpr
      (fun d hd => personDetsAux_all_person frame now (personList pd) 0 d hd)
  have h2 : (epiDets ppd frame now).filter isPersonDet = [] :=
    List.filter_eq_nil_iff.mpr (fun d hd => by
      rw [epiDetsAux_no_person frame now (ppeList ppd) 0 d hd]
      exact Bool.false_ne_true)
  rw [h1, h2]
  exact List.append_nil _

/-! ### The alerts of a frame -/

theorem frameAlertsAux_empty (frame now : Nat) :
    ∀ (persons : List Detection) (idx : Nat),
      frameAlertsAux frame now [] idx persons = [] := by
  intro persons
  induction persons with
  | nil => intro idx; rfl
  | cons p ps ih =>
    intro idx
    simp only [frameAlertsAux, List.length_nil, if_true]
    exact ih (idx + 1)

theorem frameAlertsAux_map_personId (frame now : Nat) (missing : List DetType)
    (hm : missing ≠ []) :
    ∀ (persons : List Detection) (idx : Nat),
      (frameAlertsAux frame now missing idx persons).map (fun a => a.personId)
        = persons.map (fun d => d.id) := by
  have hlen : ¬ missing.length = 0 := by
    intro h
    exact hm (List.length_eq_zero.mp h)
  intro persons
  induction persons with
  | nil => intro idx; rfl
  | cons p ps ih =>
    intro idx
    simp only [frameAlertsAux, hlen, if_false, List.map_cons]
    rw [ih (idx + 1)]
    rfl

theorem frameAlertsAux_severity (frame now : Nat) (missing : List DetType) :
    ∀ (persons : List Detection) (idx : Nat) (a : Alert),
      a ∈ frameAlertsAux frame now missing idx persons →
      a.severity = (if 2 ≤ missing.length then Severity.high else Severity.medium) := by
  intro persons
  induction persons with
  | nil => intro idx a h; cases h
  | cons p ps ih =>
    intro idx a h
    by_cases hlen : missing.length = 0
    · simp only [frameAlertsAux, hlen, if_true] at h
      exact ih (idx + 1) a h
    · simp only [frameAlertsAux, hlen, if_false] at h
      rcases List.mem_cons.mp h with h | h
      · subst h; rfl
      · exact ih (idx + 1) a h

/-! ### Counting by id -/

theorem filter_eq_length_le_one (pid : String) (l : List String)
    (h : l.Nodup) : (l.filter (fun s => s == pid)).length ≤ 1 := by
  induction l with
  | nil => simp
  | cons s l ih =>
    simp only [List.nodup_cons] at h
    by_cases hs : (s == pid) = true
    · have hspid : s = pid := by simpa using hs
      have hnil : l.filter (fun x => x == pid) = [] := by
        apply List.filter_eq_nil_iff.mpr
        intro a ha hac
        have : a = pid := by simpa using hac
        subst this
        exact h.1 (hspid ▸ ha)
      simp [List.filter_cons, hs, hnil]
    · simp only [List.filter_cons, hs, if_false]
      exact ih h.2

theorem filter_personId_length (pid : String) :
    ∀ (alerts : List Alert),
      ((alerts.filter (fun a => a.personId == pid)).length)
        = (((alerts.map (fun a => a.personId)).filter (fun s => s == pid)).length) := by
  intro alerts
  induction alerts with
  | nil => rfl
  | cons a alerts ih =>
    by_cases ha : (a.personId == pid) = true
    · simp [List.filter_cons, ha, ih]
    · simp [List.filter_cons, ha, ih]

/-! ### Faithfulness of the rational overlap ratio

In JS the overlap comparison is on IEEE doubles: when `p.w * p.h = 0` the
ratio is `NaN` (numerator provably 0 too) and `NaN > 0.7` is false; in `ℚ`
division by 0 yields 0 and `0 > 0.7` is false, so the two agree.  When the
comparison is true the denominator is strictly positive. -/

theorem overlapGt_area_pos (f p : Detection) (h : overlapGt f p = true) :
    0 < p.w * p.h := by
  unfold overlapGt overlapRatio at h
  rw [decide_eq_true_eq] at h
  by_contra hle
  push_neg at hle
  have hnum : (0:ℚ) ≤ max 0 (min (f.x + f.w) (p.x + p.w) - max f.x p.x)
      * max 0 (min (f.y + f.h) (p.y + p.h) - max f.y p.y) :=
    mul_nonneg (le_max_left 0 _) (le_max_left 0 _)
  have hnp : max 0 (min (f.x + f.w) (p.x + p.w) - max f.x p.x)
      * max 0 (min (f.y + f.h) (p.y + p.h) - max f.y p.y) / (p.w * p.h) ≤ 0 := by
    rcases lt_or_eq_of_le hle with hlt | heq
    · exact div_nonpos_of_nonneg_of_nonpos hnum (le_of_lt hlt)
    · rw [heq, div_zero]
  linarith

/-! ### Concrete fixtures used by witnesses and counterexamples -/

/-- A raw person with score 0.9 at box `[10, 10, 50, 90]`. -/
def rawPersonA : RawPerson := ⟨some 0.9, some (10, 10, 50, 90), none, none⟩

/-- A raw PPE entry `mask` with score 0.8. -/
def rawMask : RawPPE := ⟨some "mask", some 0.8, none, none⟩

/-- A person response holding exactly `rawPersonA`. -/
def pdA : PersonResponse := ⟨some [⟨some [rawPersonA]⟩]⟩

/-- A PPE response holding exactly `rawMask`. -/
def ppdMask : PPEResponse := ⟨some [⟨some [rawMask]⟩]⟩

/-- A person response without a `predictions` field. -/
def pdNone : PersonResponse := ⟨none⟩

/-- A PPE response without a `predictions` field. -/
def ppdNone : PPEResponse := ⟨none⟩

/-! ### The claims -/

/-- Claim C1: for every person detection `B` newly produced by
`processDetections` and every person detection `A` already accumulated, if
the intersection area over `B`'s own area exceeds 0.7 then `B` is not added
(its occurrence count in the store does not grow) while `A` remains, and
detections of non-person class are never removed by the deduplication (their
occurrence counts in the merged store equal those of the merged input). -/
theorem C1_dedup_drops_overlapping_person (st : StoreState) (pd : PersonResponse)
    (ppd : PPEResponse) (frame now : Nat) (A B : Detection)
    (hinv : storeInv st)
    (hA : A ∈ st.detections) (hAp : A.type = DetType.person)
    (_hB : B ∈ newDetections pd ppd frame now) (hBp : B.type = DetType.person)
    (hover : overlapGt A B = true) :
    A ∈ (processDetections pd ppd frame now st).detections ∧
    occ B (processDetections pd ppd frame now st).detections = occ B st.detections ∧
    ∀ C : Detection, C.type ≠ DetType.person →
      occ C (processDetections pd ppd frame now st).detections
        = occ C (st.detections ++ newDetections pd ppd frame now) := by
  have hiP : isPersonDet A = true := by simp [isPersonDet, hAp]
  have hiB : isPersonDet B = true := by simp [isPersonDet, hBp]
  have hdet : (processDetections pd ppd frame now st).detections
      = List.foldl dedupStep (st.detections.filter isPersonDet)
          ((newDetections pd ppd frame now).filter isPersonDet)
        ++ (st.detections.filter (fun d => ! isPersonDet d)
          ++ (newDetections pd ppd frame now).filter (fun d => ! isPersonDet d)) := by
    show filterDuplicatePersons (st.detections ++ newDetections pd ppd frame now) = _
    unfold filterDuplicatePersons
    rw [List.filter_append, List.filter_append,
      dedupPersons_append_fix _ _ (storeInv_persons_fix st hinv)]
  have hAP : A ∈ st.detections.filter isPersonDet := List.mem_filter.mpr ⟨hA, hiP⟩
  refine ⟨?_, ?_, ?_⟩
  · rw [hdet]
    exact List.mem_append.mpr (Or.inl (dedup_acc_mem _ _ A hAP))
  · rw [hdet, occ_append]
    rw [dedup_blocked A B hover _ _ hAP]
    have h2 : occ B (st.detections.filter (fun d => ! isPersonDet d)
        ++ (newDetections pd ppd frame now).filter (fun d => ! isPersonDet d)) = 0 := by
      rw [occ_append, occ_filter_neg _ _ _ (by simp [hiB]),
        occ_filter_neg _ _ _ (by simp [hiB])]
    rw [h2, occ_filter_pos B isPersonDet st.detections hiB]
    omega
  · intro C hC
    have hiC : isPersonDet C = false := by
      simp [isPersonDet]
      exact hC
    rw [hdet, occ_append]
    have h0 : occ C (List.foldl dedupStep (st.detections.filter isPersonDet)
        ((newDetections pd ppd frame now).filter isPersonDet)) = 0 := by
      apply occ_eq_zero_of_pred C _ isPersonDet ?_ hiC
      intro x hx
      rcases dedup_mem _ _ x hx with h | h
      · exact (List.mem_filter.mp h).2
      · exact (List.mem_filter.mp h).2
    rw [h0, occ_append, occ_filter_pos _ _ _ (by simp [hiC]),
      occ_filter_pos _ _ _ (by simp [hiC]), occ_append]
    omega

/-- A store holding exactly the person detection of `pdA` at frame 0. -/
def stA : StoreState := ⟨[mkPersonDet 0 0 0 rawPersonA], []⟩

theorem C1_witness :
    mkPersonDet 0 0 0 rawPersonA ∈ (processDetections pdA ppdNone 1 1 stA).detections ∧
    occ (mkPersonDet 1 1 0 rawPersonA) (processDetections pdA ppdNone 1 1 stA).detections
      = occ (mkPersonDet 1 1 0 rawPersonA) stA.detections :=
  ⟨(C1_dedup_drops_overlapping_person stA pdA ppdNone 1 1
      (mkPersonDet 0 0 0 rawPersonA) (mkPersonDet 1 1 0 rawPersonA)
      (by unfold storeInv; decide) (by decide) rfl (by decide) rfl (by decide)).1,
   (C1_dedup_drops_overlapping_person stA pdA ppdNone 1 1
      (mkPersonDet 0 0 0 rawPersonA) (mkPersonDet 1 1 0 rawPersonA)
      (by unfold storeInv; decide) (by decide) rfl (by decide) rfl (by decide)).2.1⟩

/-! ### Confidence bounds on emitted detections -/

theorem personDetsAux_conf (frame now : Nat) :
    ∀ (ps : List RawPerson) (idx : Nat) (d : Detection),
      d ∈ personDetsAux frame now idx ps → MIN_CONFIDENCE ≤ d.confidence := by
  intro ps
  induction ps with
  | nil => intro idx d h; cases h
  | cons p ps ih =>
    intro idx d h
    cases hp : personDetOfRaw frame now idx p with
    | none =>
      simp only [personDetsAux, hp] at h
      exact ih (idx + 1) d h
    | some d0 =>
      simp only [personDetsAux, hp] at h
      rcases List.mem_cons.mp h with h | h
      · subst h
        obtain ⟨hd, hs⟩ := personDetOfRaw_some frame now idx p d hp
        rw [hd]
        exact le_of_not_lt hs
      · exact ih (idx + 1) d h

theorem epiDetsAux_conf (frame now : Nat) :
    ∀ (es : List RawPPE) (idx : Nat) (d : Detection),
      d ∈ epiDetsAux frame now idx es → MIN_CONFIDENCE ≤ d.confidence := by
  intro es
  induction es with
  | nil => intro idx d h; cases h
  | cons e es ih =>
    intro idx d h
    cases hp : epiDetOfRaw frame now idx e with
    | none =>
      simp only [epiDetsAux, hp] at h
      exact ih (idx + 1) d h
    | some d0 =>
      simp only [epiDetsAux, hp] at h
      rcases List.mem_cons.mp h with h | h
      · subst h
        obtain ⟨t, _, hs, hd⟩ := epiDetOfRaw_some frame now idx e d hp
        rw [hd]
        exact le_of_not_lt hs
      · exact ih (idx + 1) d h

/-- A raw PPE entry whose label maps to no canonical class, with score
exactly at the threshold. -/
def rawUnmapped : RawPPE := ⟨some "unknown_epi", some 0.5, none, none⟩

/-- A PPE response holding exactly `rawUnmapped`. -/
def ppdUnmapped : PPEResponse := ⟨some [⟨some [rawUnmapped]⟩]⟩

/-- Claim C2, counterexample: a PPE entry with score exactly 0.5 — processed
by `processDetections` — yields no canonical Detection when its class label
is unmapped, so "an entry with score exactly 0.5 is retained" fails as
stated. -/
theorem C2_counterexample :
    scoreD rawUnmapped.score = MIN_CONFIDENCE ∧
    epiDetOfRaw 0 0 0 rawUnmapped = none ∧
    newDetections pdNone ppdUnmapped 0 0 = [] := by
  refine ⟨by decide, by decide, by decide⟩

/-- Claim C2 (amended): the confidence filter is strict at the boundary —
every raw entry with score below 0.5 yields no Detection, a person entry
with score exactly 0.5 is retained, a PPE entry with score exactly 0.5 is
retained provided its class label is mapped, and every emitted Detection has
confidence at least `MIN_CONFIDENCE`. -/
theorem C2_confidence_filter (frame now idx : Nat) (p : RawPerson) (e : RawPPE)
    (pd : PersonResponse) (ppd : PPEResponse) :
    (scoreD p.score < MIN_CONFIDENCE → personDetOfRaw frame now idx p = none) ∧
    (scoreD p.score = MIN_CONFIDENCE →
      personDetOfRaw frame now idx p = some (mkPersonDet frame now idx p)) ∧
    (scoreD e.score < MIN_CONFIDENCE → epiDetOfRaw frame now idx e = none) ∧
    (∀ t, mappedType e = some t → scoreD e.score = MIN_CONFIDENCE →
      epiDetOfRaw frame now idx e = some (mkEpiDet frame now idx e t)) ∧
    (∀ d ∈ newDetections pd ppd frame now, MIN_CONFIDENCE ≤ d.confidence) := by
  refine ⟨?_, ?_, ?_, ?_, ?_⟩
  · intro h
    unfold personDetOfRaw
    simp [h]
  · intro h
    unfold personDetOfRaw
    rw [h]
    simp
  · intro h
    unfold epiDetOfRaw
    cases hm : mappedType e with
    | none => rfl
    | some t => simp [h]
  · intro t hm h
    unfold epiDetOfRaw
    rw [hm, h]
    simp
  · intro d hd
    rcases List.mem_append.mp hd with h | h
    · exact personDetsAux_conf frame now (personList pd) 0 d h
    · exact epiDetsAux_conf frame now (ppeList ppd) 0 d h

theorem C2_witness :
    personDetOfRaw 2 2 0 ⟨some 0.3, none, none, none⟩ = none ∧
    personDetOfRaw 2 2 0 ⟨some 0.5, none, none, none⟩
      = some (mkPersonDet 2 2 0 ⟨some 0.5, none, none, none⟩) ∧
    epiDetOfRaw 2 2 0 ⟨some "mask", some 0.5, none, none⟩
      = some (mkEpiDet 2 2 0 ⟨some "mask", some 0.5, none, none⟩ DetType.mask) ∧
    MIN_CONFIDENCE ≤ (mkPersonDet 2 2 0 rawPersonA).confidence :=
  ⟨(C2_confidence_filter 2 2 0 ⟨some 0.3, none, none, none⟩ rawMask pdA ppdMask).1
      (by decide),
   (C2_confidence_filter 2 2 0 ⟨some 0.5, none, none, none⟩ rawMask pdA ppdMask).2.1
      (by decide),
   (C2_confidence_filter 2 2 0 ⟨some 0.5, none, none, none⟩
      ⟨some "mask", some 0.5, none, none⟩ pdA ppdMask).2.2.2.1 DetType.mask
      (by decide) (by decide),
   (C2_confidence_filter 2 2 0 ⟨some 0.5, none, none, none⟩ rawMask pdA ppdMask).2.2.2.2
      (mkPersonDet 2 2 0 rawPersonA) (by decide)⟩

/-- The alerts `processDetections` appends for one frame (definitionally the
`frameAlerts` of the frame's surviving persons and missing-class set). -/
def newAlerts (pd : PersonResponse) (ppd : PPEResponse) (frame now : Nat) : List Alert :=
  frameAlerts frame now (missingEPIs ppd frame now)
    ((newDetections pd ppd frame now).filter isPersonDet)

/-- Claim C3: per frame, `processDetections` appends exactly the derived
alerts; none is emitted when no required class is missing; each alert's
severity is `medium` for exactly one missing class and `high` for two or
more, never `low`; and at most one alert references any one person id, i.e.
at most one alert per (person, frame) pair. -/
theorem C3_alert_derivation (pd : PersonResponse) (ppd : PPEResponse)
    (frame now : Nat) (st : StoreState) :
    ((processDetections pd ppd frame now st).alerts
      = st.alerts ++ newAlerts pd ppd frame now) ∧
    (missingEPIs ppd frame now = [] → newAlerts pd ppd frame now = []) ∧
    (∀ a ∈ newAlerts pd ppd frame now,
      ((missingEPIs ppd frame now).length = 1 → a.severity = Severity.medium) ∧
      (2 ≤ (missingEPIs ppd frame now).length → a.severity = Severity.high) ∧
      a.severity ≠ Severity.low) ∧
    (∀ pid : String,
      ((newAlerts pd ppd frame now).filter (fun a => a.personId == pid)).length ≤ 1) := by
  refine ⟨rfl, ?_, ?_, ?_⟩
  · intro h
    unfold newAlerts frameAlerts
    rw [h]
    exact frameAlertsAux_empty frame now _ 0
  · intro a ha
    have hsev := frameAlertsAux_severity frame now (missingEPIs ppd frame now) _ 0 a ha
    refine ⟨?_, ?_, ?_⟩
    · intro h1
      rw [hsev, h1]
      rfl
    · intro h2
      rw [hsev, if_pos h2]
    · rw [hsev]
      by_cases h2 : 2 ≤ (missingEPIs ppd frame now).length
      · rw [if_pos h2]
        exact fun hc => Severity.noConfusion hc
      · rw [if_neg h2]
        exact fun hc => Severity.noConfusion hc
  · intro pid
    by_cases hm : missingEPIs ppd frame now = []
    · unfold newAlerts frameAlerts
      rw [hm, frameAlertsAux_empty frame now _ 0]
      simp
    · rw [filter_personId_length pid (newAlerts pd ppd frame now)]
      unfold newAlerts frameAlerts
      rw [frameAlertsAux_map_personId frame now _ hm _ 0]
      rw [newDetections_persons pd ppd frame now]
      exact filter_eq_length_le_one pid _ (personDets_ids_nodup pd frame now)

theorem C3_witness :
    ((processDetections pdA ppdMask 0 0 ⟨[], []⟩).alerts
      = [] ++ newAlerts pdA ppdMask 0 0) ∧
    (⟨"alert_0_0", "person_0_0", ["Óculos de Proteção", "Protetor Auricular"],
        Severity.high, 0, 0⟩ : Alert).severity = Severity.high ∧
    ((newAlerts pdA ppdMask 0 0).filter
      (fun a => a.personId == "person_0_0")).length ≤ 1 :=
  ⟨(C3_alert_derivation pdA ppdMask 0 0 ⟨[], []⟩).1,
   ((C3_alert_derivation pdA ppdMask 0 0 ⟨[], []⟩).2.2.1
      ⟨"alert_0_0", "person_0_0", ["Óculos de Proteção", "Protetor Auricular"],
        Severity.high, 0, 0⟩ (by decide)).2.1 (by decide),
   (C3_alert_derivation pdA ppdMask 0 0 ⟨[], []⟩).2.2.2 "person_0_0"⟩

/-- Claim C4: when both raw arrays are absent or empty, `processDetections`
adds no Detection and no Alert (and, being a total function, never throws):
the alerts are unchanged, every stored detection was already stored, and on
any reachable store (satisfying `storeInv`) the state is unchanged. -/
theorem C4_empty_payload (pd : PersonResponse) (ppd : PPEResponse)
    (frame now : Nat) (st : StoreState)
    (hp : personList pd = []) (he : ppeList ppd = []) :
    (processDetections pd ppd frame now st).alerts = st.alerts ∧
    (∀ d ∈ (processDetections pd ppd frame now st).detections, d ∈ st.detections) ∧
    (storeInv st → processDetections pd ppd frame now st = st) := by
  have hnd : newDetections pd ppd frame now = [] := by
    unfold newDetections personDets epiDets
    rw [hp, he]
    rfl
  have halerts : (processDetections pd ppd frame now st).alerts = st.alerts := by
    have h0 : (processDetections pd ppd frame now st).alerts
        = st.alerts ++ frameAlerts frame now (missingEPIs ppd frame now)
            ((newDetections pd ppd frame now).filter isPersonDet) := rfl
    rw [h0, hnd]
    simp only [List.filter_nil]
    rw [show frameAlerts frame now (missingEPIs ppd frame now) [] = [] from rfl]
    exact List.append_nil _
  have hdets : (processDetections pd ppd frame now st).detections
      = filterDuplicatePersons st.detections := by
    have h0 : (processDetections pd ppd frame now st).detections
        = filterDuplicatePersons (st.detections ++ newDetections pd ppd frame now) := rfl
    rw [h0, hnd, List.append_nil]
  refine ⟨halerts, ?_, ?_⟩
  · intro d hd
    rw [hdets] at hd
    unfold filterDuplicatePersons at hd
    rcases List.mem_append.mp hd with h | h
    · rcases dedup_mem _ [] d h with h0 | h0
      · cases h0
      · exact (List.mem_filter.mp h0).1
    · exact (List.mem_filter.mp h).1
  · intro hinv
    apply StoreState.ext
    · rw [hdets]
      exact hinv.symm
    · exact halerts

/-- A person response whose first prediction lacks the `persons` field. -/
def pdNoPersons : PersonResponse := ⟨some [⟨none⟩]⟩

/-- A PPE response with an empty `predictions` array. -/
def ppdEmptyPreds : PPEResponse := ⟨some []⟩

theorem C4_witness :
    (processDetections pdNoPersons ppdEmptyPreds 3 3 stA).alerts = stA.alerts ∧
    processDetections pdNoPersons ppdEmptyPreds 3 3 stA = stA :=
  ⟨(C4_empty_payload pdNoPersons ppdEmptyPreds 3 3 stA (by decide) (by decide)).1,
   (C4_empty_payload pdNoPersons ppdEmptyPreds 3 3 stA (by decide) (by decide)).2.2
      (by unfold storeInv; decide)⟩

/-- Claim C5: for the frame with one person (score 0.9, box `[10,10,50,90]`)
and one `mask` PPE detection (score 0.8), with required set
{mask, glasses, hearing}, exactly one Alert is emitted, its missing-class
set is {glasses, hearing} (displayed as "Óculos de Proteção",
"Protetor Auricular"), and its severity is `high`. -/
theorem C5_scenario :
    missingEPIs ppdMask 0 0 = [DetType.glasses, DetType.hearing] ∧
    (processDetections pdA ppdMask 0 0 ⟨[], []⟩).alerts
      = [⟨"alert_0_0", "person_0_0",
          [displayEPI DetType.glasses, displayEPI DetType.hearing],
          Severity.high, 0, 0⟩] ∧
    [displayEPI DetType.glasses, displayEPI DetType.hearing]
      = ["Óculos de Proteção", "Protetor Auricular"] := by
  refine ⟨by decide, by decide, by decide⟩

theorem lookup_map_pair (f : DetType → ℚ) :
    ∀ (l : List DetType) (t : DetType), t ∈ l →
      (l.map (fun s => (s, f s))).lookup t = some (f t) := by
  intro l
  induction l with
  | nil => intro t ht; cases ht
  | cons s l ih =>
    intro t ht
    simp only [List.map_cons, List.lookup]
    by_cases hts : (t == s) = true
    · have : t = s := by simpa using hts
      subst this
      simp
    · simp only [hts, if_false]
      rcases List.mem_cons.mp ht with h | h
      · exact absurd (by simp [h]) hts
      · exact ih t h

/-- Claim C6, counterexample: with one `mask` detection and zero person
detections, the code returns the *empty* rates object — the rate for `mask`
is absent (`none`), not 0 — so "complianceRate for that class equals 0"
fails as stated (though indeed no division by zero is performed). -/
theorem C6_counterexample :
    countByClass [mkEpiDet 0 0 0 rawMask DetType.mask] DetType.person = 0 ∧
    countByClass [mkEpiDet 0 0 0 rawMask DetType.mask] DetType.mask = 1 ∧
    complianceRate [mkEpiDet 0 0 0 rawMask DetType.mask] DetType.mask ≠ some 0 ∧
    complianceRate [mkEpiDet 0 0 0 rawMask DetType.mask] DetType.mask = none := by
  refine ⟨by decide, by decide, by decide, by decide⟩

/-- Claim C6 (amended): with zero person detections `getComplianceRates`
returns the empty map — no rate (not 0, not NaN, no error) is reported for
any class and the division is never performed; with at least one person the
rate of every PPE class equals `min 100 (count / persons * 100)`. -/
theorem C6_compliance_rate (dets : List Detection) (t : DetType) :
    (countByClass dets DetType.person = 0 → complianceRate dets t = none) ∧
    (0 < countByClass dets DetType.person → t ∈ ppeClasses →
      complianceRate dets t = some (min 100
        ((countByClass dets t : ℚ) / (countByClass dets DetType.person : ℚ) * 100))) := by
  constructor
  · intro h
    unfold complianceRate getComplianceRates
    rw [if_pos h]
    rfl
  · intro h ht
    unfold complianceRate getComplianceRates
    rw [if_neg (by omega)]
    exact lookup_map_pair _ ppeClasses t ht

theorem C6_witness :
    complianceRate [mkEpiDet 0 0 0 rawMask DetType.mask] DetType.gloves = none ∧
    complianceRate [mkPersonDet 0 0 0 rawPersonA, mkEpiDet 0 0 0 rawMask DetType.mask]
        DetType.mask
      = some (min 100
          ((countByClass [mkPersonDet 0 0 0 rawPersonA, mkEpiDet 0 0 0 rawMask DetType.mask]
              DetType.mask : ℚ)
            / (countByClass [mkPersonDet 0 0 0 rawPersonA, mkEpiDet 0 0 0 rawMask DetType.mask]
              DetType.person : ℚ) * 100)) :=
  ⟨(C6_compliance_rate [mkEpiDet 0 0 0 rawMask DetType.mask] DetType.gloves).1 (by decide),
   (C6_compliance_rate [mkPersonDet 0 0 0 rawPersonA, mkEpiDet 0 0 0 rawMask DetType.mask]
      DetType.mask).2 (by decide) (by decide)⟩

/-- The store after one frame holding only the `mask` detection. -/
def stMask : StoreState := processDetections pdNone ppdMask 0 0 ⟨[], []⟩

/-- Claim C7, counterexample: merging a frame that adds one person into a
(reachable) store holding one non-person `mask` detection yields
`[person, mask]` — the newly added person precedes the previously stored
mask, so the merged sequence does *not* list every previously stored
detection before every newly added one. -/
theorem C7_counterexample :
    stMask.detections = [mkEpiDet 0 0 0 rawMask DetType.mask] ∧
    (processDetections pdA ppdNone 1 1 stMask).detections
      = [mkPersonDet 1 1 0 rawPersonA, mkEpiDet 0 0 0 rawMask DetType.mask] ∧
    mkPersonDet 1 1 0 rawPersonA ≠ mkEpiDet 0 0 0 rawMask DetType.mask := by
  refine ⟨by decide, by decide, by decide⟩

/-- Claim C7 (amended): after merging one frame's output the cumulative
sequence is all surviving persons followed by all non-persons; old-before-new
order (in the original relative order) holds *within* the person group and
*within* the non-person group, not across the two groups. -/
theorem C7_append_order (st : StoreState) (pd : PersonResponse)
    (ppd : PPEResponse) (frame now : Nat) :
    ((processDetections pd ppd frame now st).detections
      = dedupPersons (st.detections.filter isPersonDet
          ++ (newDetections pd ppd frame now).filter isPersonDet)
        ++ (st.detections.filter (fun d => ! isPersonDet d)
          ++ (newDetections pd ppd frame now).filter (fun d => ! isPersonDet d))) ∧
    (storeInv st → ∃ extra : List Detection,
      extra.Sublist ((newDetections pd ppd frame now).filter isPersonDet) ∧
      (processDetections pd ppd frame now st).detections
        = st.detections.filter isPersonDet ++ extra
          ++ (st.detections.filter (fun d => ! isPersonDet d)
            ++ (newDetections pd ppd frame now).filter (fun d => ! isPersonDet d))) := by
  have hdec : (processDetections pd ppd frame now st).detections
      = dedupPersons (st.detections.filter isPersonDet
          ++ (newDetections pd ppd frame now).filter isPersonDet)
        ++ (st.detections.filter (fun d => ! isPersonDet d)
          ++ (newDetections pd ppd frame now).filter (fun d => ! isPersonDet d)) := by
    show filterDuplicatePersons (st.detections ++ newDetections pd ppd frame now) = _
    unfold filterDuplicatePersons
    rw [List.filter_append, List.filter_append]
  refine ⟨hdec, ?_⟩
  intro hinv
  obtain ⟨extra, hex, hsub⟩ :=
    dedup_extends ((newDetections pd ppd frame now).filter isPersonDet)
      (st.detections.filter isPersonDet)
  refine ⟨extra, hsub, ?_⟩
  rw [hdec, dedupPersons_append_fix _ _ (storeInv_persons_fix st hinv), hex,
    List.append_assoc]

theorem C7_witness :
    ∃ extra : List Detection,
      extra.Sublist ((newDetections pdA ppdNone 1 1).filter isPersonDet) ∧
      (processDetections pdA ppdNone 1 1 stMask).detections
        = stMask.detections.filter isPersonDet ++ extra
          ++ (stMask.detections.filter (fun d => ! isPersonDet d)
            ++ (newDetections pdA ppdNone 1 1).filter (fun d => ! isPersonDet d)) :=
  (C7_append_order stMask pdA ppdNone 1 1).2 (storeInv_process pdNone ppdMask 0 0 ⟨[], []⟩)

/-! ### Realtime controller lemmas -/

theorem rtTick_stopped (s : RTState) (pd : PersonResponse) (ppd : PPEResponse)
    (now : Nat) (h : s.isRealtime = false) : rtTick s pd ppd now = s := by
  unfold rtTick
  rw [h]
  rfl

theorem rtRun_stopped :
    ∀ (inputs : List (PersonResponse × PPEResponse × Nat)) (s : RTState),
      s.isRealtime = false → rtRun s inputs = s := by
  intro inputs
  induction inputs with
  | nil => intro s _; rfl
  | cons i rest ih =>
    intro s h
    obtain ⟨pd, ppd, now⟩ := i
    have hstep : rtRun s ((pd, ppd, now) :: rest) = rtRun (rtTick s pd ppd now) rest := rfl
    rw [hstep, rtTick_stopped s pd ppd now h]
    exact ih s h

theorem rtTick_camera (s : RTState) (pd : PersonResponse) (ppd : PPEResponse)
    (now : Nat) : (rtTick s pd ppd now).isCameraOn = s.isCameraOn := by
  unfold rtTick
  cases h : s.isRealtime
  · rfl
  · simp only [Bool.not_true, Bool.false_eq_true, if_false]
    by_cases hm : MAX_MISSED_FRAMES ≤
        (if (qualifyingPersons pd).length = 0 then s.missedFrames + 1 else 0)
    · rw [if_pos hm]
    · rw [if_neg hm]

theorem rtRun_camera :
    ∀ (inputs : List (PersonResponse × PPEResponse × Nat)) (s : RTState),
      (rtRun s inputs).isCameraOn = s.isCameraOn := by
  intro inputs
  induction inputs with
  | nil => intro s; rfl
  | cons i rest ih =>
    intro s
    obtain ⟨pd, ppd, now⟩ := i
    have hstep : rtRun s ((pd, ppd, now) :: rest) = rtRun (rtTick s pd ppd now) rest := rfl
    rw [hstep, ih (rtTick s pd ppd now), rtTick_camera]

theorem rtTick_miss (s : RTState) (pd : PersonResponse) (ppd : PPEResponse)
    (now : Nat) (hrun : s.isRealtime = true) (hq : qualifyingPersons pd = []) :
    (rtTick s pd ppd now).isRealtime = false ∨
      ((rtTick s pd ppd now).isRealtime = true ∧
        (rtTick s pd ppd now).missedFrames = s.missedFrames + 1) := by
  unfold rtTick
  rw [hrun]
  simp only [Bool.not_true, Bool.false_eq_true, if_false]
  have hcond : (qualifyingPersons pd).length = 0 := by rw [hq]; rfl
  rw [if_pos hcond]
  by_cases hm : MAX_MISSED_FRAMES ≤ s.missedFrames + 1
  · rw [if_pos hm]
    exact Or.inl rfl
  · rw [if_neg hm]
    exact Or.inr ⟨rfl, rfl⟩

theorem rtTick_running_bound (s : RTState) (pd : PersonResponse)
    (ppd : PPEResponse) (now : Nat)
    (h : (rtTick s pd ppd now).isRealtime = true) (hrun : s.isRealtime = true) :
    (rtTick s pd ppd now).missedFrames < MAX_MISSED_FRAMES := by
  unfold rtTick at h ⊢
  rw [hrun] at h ⊢
  simp only [Bool.not_true, Bool.false_eq_true, if_false] at h ⊢
  by_cases hm : MAX_MISSED_FRAMES ≤
      (if (qualifyingPersons pd).length = 0 then s.missedFrames + 1 else 0)
  · rw [if_pos hm] at h
    cases h
  · rw [if_neg hm]
    show (if (qualifyingPersons pd).length = 0 then s.missedFrames + 1 else 0)
      < MAX_MISSED_FRAMES
    omega

theorem rtRun_miss :
    ∀ (inputs : List (PersonResponse × PPEResponse × Nat)) (s : RTState),
      (∀ i ∈ inputs, qualifyingPersons i.1 = []) → s.isRealtime = true →
      (rtRun s inputs).isRealtime = false ∨
        ((rtRun s inputs).isRealtime = true ∧
          s.missedFrames + inputs.length ≤ (rtRun s inputs).missedFrames) := by
  intro inputs
  induction inputs with
  | nil => intro s _ hrun; exact Or.inr ⟨hrun, Nat.le_refl s.missedFrames⟩
  | cons i rest ih =>
    intro s hmiss hrun
    obtain ⟨pd, ppd, now⟩ := i
    have hstep : rtRun s ((pd, ppd, now) :: rest) = rtRun (rtTick s pd ppd now) rest := rfl
    rw [hstep]
    have hq : qualifyingPersons pd = [] := hmiss (pd, ppd, now) (List.mem_cons_self _ _)
    rcases rtTick_miss s pd ppd now hrun hq with hstop | ⟨hrun2, hmf⟩
    · left
      rw [rtRun_stopped rest _ hstop]
      exact hstop
    · rcases ih (rtTick s pd ppd now)
        (fun j hj => hmiss j (List.mem_cons_of_mem _ hj)) hrun2 with h | ⟨h1, h2⟩
      · exact Or.inl h
      · refine Or.inr ⟨h1, ?_⟩
        rw [hmf] at h2
        simp only [List.length_cons]
        omega

theorem rtRun_running_bound :
    ∀ (inputs : List (PersonResponse × PPEResponse × Nat)) (s : RTState),
      (rtRun s inputs).isRealtime = true →
      (rtRun s inputs).missedFrames < MAX_MISSED_FRAMES ∨
        (inputs = [] ∧ rtRun s inputs = s) := by
  intro inputs
  induction inputs with
  | nil => intro s _; exact Or.inr ⟨rfl, rfl⟩
  | cons i rest ih =>
    intro s hrun
    obtain ⟨pd, ppd, now⟩ := i
    have hstep : rtRun s ((pd, ppd, now) :: rest) = rtRun (rtTick s pd ppd now) rest := rfl
    rw [hstep] at hrun ⊢
    rcases ih (rtTick s pd ppd now) hrun with h | ⟨hnil, _⟩
    · exact Or.inl h
    · left
      rw [hnil] at hrun ⊢
      have hrt : (rtTick s pd ppd now).isRealtime = true := hrun
      have hs : s.isRealtime = true := by
        cases hb : s.isRealtime
        · rw [rtTick_stopped s pd ppd now hb] at hrt
          rw [hrt] at hb
          cases hb
        · rfl
      show (rtTick s pd ppd now).missedFrames < MAX_MISSED_FRAMES
      exact rtTick_running_bound s pd ppd now hrt hs

/-- Claim C8: in a running live session, five consecutive sampling cycles
each yielding zero person detections with score ≥ 0.6 stop the analysis loop
(the timer state goes from `Analyzing` back to camera-on-without-analysis:
`isRealtime` becomes false while the camera stays as it was), and any cycle
containing a qualifying person resets the consecutive-miss counter to 0. -/
theorem C8_auto_stop (s : RTState) (inputs : List (PersonResponse × PPEResponse × Nat))
    (pd : PersonResponse) (ppd : PPEResponse) (now : Nat)
    (hrun : s.isRealtime = true)
    (hlen : inputs.length = MAX_MISSED_FRAMES)
    (hmiss : ∀ i ∈ inputs, qualifyingPersons i.1 = []) :
    ((rtRun s inputs).isRealtime = false ∧
      (rtRun s inputs).isCameraOn = s.isCameraOn) ∧
    (qualifyingPersons pd ≠ [] → s.isRealtime = true →
      (rtTick s pd ppd now).missedFrames = 0) := by
  constructor
  · refine ⟨?_, rtRun_camera inputs s⟩
    rcases rtRun_miss inputs s hmiss hrun with h | ⟨h1, h2⟩
    · exact h
    · rcases rtRun_running_bound inputs s h1 with h3 | ⟨hnil, _⟩
      · rw [hlen] at h2
        omega
      · rw [hnil] at hlen
        exact absurd hlen (by decide)
  · intro hq hrun2
    unfold rtTick
    rw [hrun2]
    simp only [Bool.not_true, Bool.false_eq_true, if_false]
    have hcond : ¬ (qualifyingPersons pd).length = 0 :=
      fun h0 => hq (List.length_eq_zero.mp h0)
    rw [if_neg hcond]
    rw [if_neg (show ¬ MAX_MISSED_FRAMES ≤ 0 by unfold MAX_MISSED_FRAMES; omega)]

/-- A realtime session just started (camera on, loop running, counter 0). -/
def rtStart : RTState := startRealtime ⟨false, true, 0, ⟨[], []⟩⟩

/-- Five cycles with empty detector responses. -/
def rtFiveEmpty : List (PersonResponse × PPEResponse × Nat) :=
  [(pdNone, ppdNone, 1), (pdNone, ppdNone, 2), (pdNone, ppdNone, 3),
   (pdNone, ppdNone, 4), (pdNone, ppdNone, 5)]

theorem C8_witness :
    ((rtRun rtStart rtFiveEmpty).isRealtime = false ∧
      (rtRun rtStart rtFiveEmpty).isCameraOn = rtStart.isCameraOn) ∧
    (rtTick rtStart pdA ppdMask 7).missedFrames = 0 :=
  ⟨(C8_auto_stop rtStart rtFiveEmpty pdA ppdMask 7 (by decide) (by decide)
      (by decide)).1,
   (C8_auto_stop rtStart rtFiveEmpty pdA ppdMask 7 (by decide) (by decide)
      (by decide)).2 (by decide) (by decide)⟩

/-- The store after a first frame with one person and no PPE. -/
def stFrame0 : StoreState := processDetections pdA ppdNone 0 0 ⟨[], []⟩

/-- The store after a second frame (frame 10) with the same person box. -/
def stFrame10 : StoreState := processDetections pdA ppdNone 10 10 stFrame0

/-- Claim C9: alerts are derived before cross-frame deduplication and never
deduplicated: after two frames with the same person box, the store holds two
alerts but only one person detection, and the second alert's `personId`
references a person detection that is not in the store. -/
theorem C9_dangling_alert :
    stFrame10.alerts.length = 2 ∧
    (stFrame10.detections.filter isPersonDet).length = 1 ∧
    (stFrame10.detections.filter isPersonDet).length < stFrame10.alerts.length ∧
    ∃ a ∈ stFrame10.alerts, ∀ d ∈ stFrame10.detections, d.id ≠ a.personId := by
  refine ⟨by decide, by decide, by decide, by decide⟩

/-- Claim C10: a person detection whose rectangle has zero area is never
treated as a duplicate: the overlap test is false against every kept
detection (`0/0 = 0` in the embedding, `NaN > 0.7` false in JS — see
`overlapGt_area_pos`), so it is always appended; a raw person entry without
`box`/`w`/`h` fields produces such a zero-area detection, and two identical
zero-area detections are both retained. -/
theorem C10_zero_area (acc : List Detection) (p : Detection)
    (frame now idx : Nat) (rp : RawPerson)
    (hz : p.w * p.h = 0) :
    (∀ f : Detection, overlapGt f p = false) ∧
    dedupStep acc p = acc ++ [p] ∧
    (rp.box = none → rp.w = none → rp.h = none →
      (mkPersonDet frame now idx rp).w * (mkPersonDet frame now idx rp).h = 0) ∧
    dedupPersons [p, p] = [p, p] := by
  have hov : ∀ f : Detection, overlapGt f p = false := by
    intro f
    cases hb : overlapGt f p
    · rfl
    · have := overlapGt_area_pos f p hb
      rw [hz] at this
      exact absurd this (lt_irrefl 0)
  have hstep : ∀ acc2 : List Detection, dedupStep acc2 p = acc2 ++ [p] := by
    intro acc2
    apply dedupStep_neg
    apply List.any_eq_false.mpr
    intro f _
    rw [hov f]
    exact Bool.false_ne_true
  refine ⟨hov, hstep acc, ?_, ?_⟩
  · intro hb hw hh
    unfold mkPersonDet
    rw [hb, hw, hh]
    show (0 : ℚ) * 0 = 0
    ring
  · show List.foldl dedupStep [] [p, p] = [p, p]
    simp only [List.foldl_cons, List.foldl_nil]
    rw [hstep [], List.nil_append, hstep [p]]
    rfl

/-- A zero-area person detection: score at the threshold, no box and no
`w`/`h` fields. -/
def rawZero : RawPerson := ⟨some 0.5, none, none, none⟩

theorem C10_witness :
    overlapGt (mkPersonDet 0 0 0 rawZero) (mkPersonDet 0 0 0 rawZero) = false ∧
    (mkPersonDet 0 0 0 rawZero).w * (mkPersonDet 0 0 0 rawZero).h = 0 ∧
    dedupPersons [mkPersonDet 0 0 0 rawZero, mkPersonDet 0 0 0 rawZero]
      = [mkPersonDet 0 0 0 rawZero, mkPersonDet 0 0 0 rawZero] :=
  ⟨(C10_zero_area [] (mkPersonDet 0 0 0 rawZero) 0 0 0 rawZero (by decide)).1
      (mkPersonDet 0 0 0 rawZero),
   (C10_zero_area [] (mkPersonDet 0 0 0 rawZero) 0 0 0 rawZero (by decide)).2.2.1
      rfl rfl rfl,
   (C10_zero_area [] (mkPersonDet 0 0 0 rawZero) 0 0 0 rawZero (by decide)).2.2.2⟩

end VisionSafeGuard
